import Mathlib

/-!
# Clone pattern servers: snapshot routing, publish loop and the kvmsg frames

A shallow embedding of `clonesrv1.cpp` (publish loop), `clonesrv3.h` and
`clonesrv4.h` (`s_send_snapshot`) and of the `kvmsg` record declared in
`kvsimple.hpp`, together with the properties the specification states about
them.

Conventions of the embedding:

* `std::string` and `ustring` are lists of bytes (`Fin 256`);
* `int64_t` is an `Int` kept in the range `-2^63 .. 2^63-1` by `wrap64`;
* a `zmq::socket_t` the program only sends on is the list of frames sent on
  it so far, each frame carrying its "more frames follow" flag;
* a `std::unordered_map` is its iteration sequence, a list of entries whose
  keys are pairwise distinct;
* a C++ exception or an out-of-buffer read is an `Except.error`.
-/

namespace Clone

/-! ## Bytes, strings, sockets -/

/-- One `char` / `unsigned char`. -/
abbrev byte := Fin 256

/-- The type `std::string`: a sequence of bytes. -/
abbrev string := List byte

/-- The type `ustring = std::basic_string<unsigned char>` of kvsimple.hpp:16. -/
abbrev ustring := List byte

/-- One frame handed to a socket, and whether it was sent with the
"more frames follow" flag. -/
structure frame where
  data : List byte
  more : Bool
deriving DecidableEq, Repr

/-- A socket the program sends on: the frames sent so far, oldest first. -/
structure socket_t where
  sent : List frame
deriving DecidableEq, Repr

/-- The two ways a `std::string` operation can go wrong: the `std::out_of_range`
exception, and a read of a byte outside the string's buffer. -/
inductive fault where
  | out_of_range
  | bad_read
deriving DecidableEq, Repr

/-- Modelled from the spec: `s_sendmore` of zhelpers.hpp, which is not among the
sources. It sends the string as one frame flagged "more frames follow"; the
snapshot duty uses it to address a record "to the requester's identity". -/
def s_sendmore (socket : socket_t) (s : string) : socket_t :=
  ⟨socket.sent ++ [⟨s, true⟩]⟩

/-- The multipart messages a frame stream delivers: a message is a maximal run
of frames closed by a frame without the "more" flag; an unclosed tail is not
delivered. `cur` holds the frames of the message being assembled. -/
def messagesAux : List frame → List (List byte) → List (List (List byte))
  | [], _ => []
  | f :: fs, cur =>
    if f.more then messagesAux fs (cur ++ [f.data])
    else (cur ++ [f.data]) :: messagesAux fs []

/-- The multipart messages delivered by a frame stream. -/
def messages (fs : List frame) : List (List (List byte)) := messagesAux fs []

/-! ## `std::string::compare` -/

/-- Read of the byte at index `i` of a string's buffer. -/
def string.at (s : string) (i : Nat) : Except fault byte :=
  match s.get? i with
  | some b => .ok b
  | none => .error .bad_read

/-- The function `char_traits<char>::compare(p, q, n)` on the buffers `s + ps`
and `t + pt`: the sign of the first difference among `n` bytes, reading both
buffers byte by byte. -/
def traits_compare (s : string) (ps : Nat) (t : string) (pt : Nat) : Nat → Except fault Int
  | 0 => .ok 0
  | n + 1 =>
    match string.at s ps, string.at t pt with
    | .ok a, .ok b =>
      if a < b then .ok (-1)
      else if b < a then .ok 1
      else traits_compare s (ps + 1) t (pt + 1) n
    | .error e, _ => .error e
    | _, .error e => .error e

/-- The call `self.compare(pos, len, str)`: throws `out_of_range` when
`pos > size()`, otherwise compares the substring `[pos, pos + min(len, size() - pos))`
of `self` with `str`, first by content over the common length, then by length. -/
def string.compare (self : string) (pos len : Nat) (str : string) : Except fault Int :=
  if pos > self.length then .error .out_of_range
  else
    let rlen := min len (self.length - pos)
    match traits_compare self pos str 0 (min rlen str.length) with
    | .error e => .error e
    | .ok r =>
      if r ≠ 0 then .ok r
      else if rlen < str.length then .ok (-1)
      else if str.length < rlen then .ok 1
      else .ok 0

/-! ## `kvmsg` (kvsimple.hpp) -/

/-- The data members of `struct kvmsg` (kvsimple.hpp:54-56). -/
structure kvmsg where
  key_ : string
  body_ : ustring
  sequence_ : Int
deriving DecidableEq, Repr

/-- The value `kvmsg_key_max` (kvsimple.hpp:48). -/
def kvmsg_key_max : Nat := 255

/-- The value `kvmsg_frames` (kvsimple.hpp:52). -/
def kvmsg_frames : Nat := 3

/-- Reduction of an integer to the range of `int64_t` (two's complement). -/
def wrap64 (x : Int) : Int := (x + 2 ^ 63) % 2 ^ 64 - 2 ^ 63

/-- The eight bytes of a 64-bit sequence number in network byte order (most
significant byte first), two's complement. -/
def seq_bytes (sequence : Int) : List byte :=
  let u := (sequence % 18446744073709551616).toNat
  [Fin.ofNat (u / 72057594037927936), Fin.ofNat (u / 281474976710656),
   Fin.ofNat (u / 1099511627776), Fin.ofNat (u / 4294967296),
   Fin.ofNat (u / 16777216), Fin.ofNat (u / 65536),
   Fin.ofNat (u / 256), Fin.ofNat u]

/-- The 64-bit signed number held in network byte order by a frame. -/
def bytes_seq (bs : List byte) : Int :=
  let u : Nat := bs.foldl (fun acc b => acc * 256 + b.val) 0
  if u < 9223372036854775808 then (u : Int) else (u : Int) - 18446744073709551616

/-- Modelled from the spec: the constructor `kvmsg(key, sequence, body)`
(kvsimple.hpp:18), whose body is not among the sources; it stores the three
fields of the update record. -/
def kvmsg.new (key : string) (sequence : Int) (body : ustring) : kvmsg :=
  ⟨key, body, sequence⟩

/-- Modelled from the spec: the frames `kvmsg::send` writes (kvsimple.hpp:23,
body of the method not among the sources). Spec 4.1: "key, sequence (fixed-width
binary, network byte order), then ... body directly"; header: "any empty frames
are sent as such". The first two frames carry the "more" flag. -/
def kvmsg.frames (self : kvmsg) : List frame :=
  [⟨self.key_, true⟩, ⟨seq_bytes self.sequence_, true⟩, ⟨self.body_, false⟩]

/-- Modelled from the spec: `kvmsg::send` (kvsimple.hpp:23), which writes the
record's three frames to the socket and has no other effect ("the codec has no
side effects"). -/
def kvmsg.send (self : kvmsg) (socket : socket_t) : socket_t :=
  ⟨socket.sent ++ self.frames⟩

/-- Modelled from the spec: `kvmsg::recv` (kvsimple.hpp:21) applied to the
frames of one delivered message. Spec 4.1: decoding fails "when frame count is
wrong" or "the sequence field is not exactly the expected width"; the header
returns `std::optional<kvmsg>`. -/
def kvmsg.recv (msg : List (List byte)) : Option kvmsg :=
  match msg with
  | [k, s, b] => if s.length = 8 then some ⟨k, b, bytes_seq s⟩ else none
  | _ => none

/-! ## `std::unordered_map` -/

/-- A `std::unordered_map<std::string, V>`: its entries in iteration order,
with pairwise distinct keys. -/
structure unordered_map (V : Type) where
  entries : List (string × V)
  nodup : (entries.map Prod.fst).Nodup

/-- The call `m.size()`. -/
def unordered_map.size {V : Type} (m : unordered_map V) : Nat := m.entries.length

/-- The call `m.find(key)`, as the mapped value if the key is present. -/
def unordered_map.find {V : Type} (m : unordered_map V) (key : string) : Option V :=
  (m.entries.find? (fun kv => kv.1 = key)).map Prod.snd

/-- The entries after `m[key] = v`: the value of an existing entry is replaced
in place, a new entry is added (its place in the iteration order is
unspecified in C++; the model puts it last). -/
def assignEntries {V : Type} (key : string) (v : V) : List (string × V) → List (string × V)
  | [] => [(key, v)]
  | kv :: rest => if kv.1 = key then (key, v) :: rest else kv :: assignEntries key v rest

/-- The statement `m[key] = v`. -/
def unordered_map.assign {V : Type} (m : unordered_map V) (key : string) (v : V) :
    unordered_map V :=
  ⟨assignEntries key v m.entries, by
    have keys : ∀ l : List (string × V), (assignEntries key v l).map Prod.fst =
        if key ∈ l.map Prod.fst then l.map Prod.fst else l.map Prod.fst ++ [key] := by
      intro l
      induction l with
      | nil => simp [assignEntries]
      | cons kv rest ih =>
        by_cases h : kv.1 = key
        · simp [assignEntries, h]
        · have h2 : ¬ key = kv.1 := fun e => h e.symm
          simp only [assignEntries, h, if_false, List.map_cons, ih, List.mem_cons, h2, false_or]
          split <;> simp
    rw [keys]
    split
    · exact m.nodup
    · rename_i hk
      rw [List.nodup_append]
      refine ⟨m.nodup, List.nodup_singleton _, ?_⟩
      intro a ha hb
      simp only [List.mem_singleton] at hb
      exact hk (hb ▸ ha)⟩

/-! ## Snapshot routing without a filter (clonesrv3.h) -/

/-- The frames of one record addressed to a peer: the identity frame, flagged
"more", then the frames of the record. -/
def addressed (identity : string) (r : kvmsg) : List frame :=
  ⟨identity, true⟩ :: r.frames

/-- The parts of the message that delivers one addressed record. -/
def addressed_msg (identity : string) (r : kvmsg) : List (List byte) :=
  identity :: r.frames.map frame.data

namespace clonesrv3

/-- The struct `kvroute_t` of clonesrv3.h:11-14; the socket pointed to is
held by value. -/
structure kvroute_t where
  socket : socket_t
  identity : string
deriving DecidableEq, Repr

/-- The range-for loop of clonesrv3.h:19-22 over the entries still to visit. -/
def send_loop (identity : string) : List (string × kvmsg) → socket_t → socket_t
  | [], socket => socket
  | kv :: rest, socket =>
    send_loop identity rest (kv.2.send (s_sendmore socket identity))

/-- The function `s_send_snapshot` of clonesrv3.h:18-24. Both arguments are
passed by reference, so the result holds their final values, then the
returned `int`. -/
def s_send_snapshot (kvmap : unordered_map kvmsg) (kvroute : kvroute_t) :
    unordered_map kvmsg × kvroute_t × Int :=
  (kvmap, { kvroute with socket := send_loop kvroute.identity kvmap.entries kvroute.socket }, 0)

end clonesrv3

/-! ## Snapshot routing with a subtree filter (clonesrv4.h) -/

namespace clonesrv4

/-- The struct `kvroute_t` of clonesrv4.h:11-15; the socket pointed to is
held by value. -/
structure kvroute_t where
  socket : socket_t
  identity : string
  subtree : string
deriving DecidableEq, Repr

/-- The condition of clonesrv4.h:21,
`subtree.size() <= key.size() && key.compare(0, subtree.size(), subtree) == 0`;
the right operand is evaluated only when the left one holds. -/
def subtree_test (key subtree : string) : Except fault Bool :=
  if subtree.length ≤ key.length then
    match string.compare key 0 subtree.length subtree with
    | .ok r => .ok (r == 0)
    | .error e => .error e
  else .ok false

/-- The range-for loop of clonesrv4.h:20-25 over the entries still to visit. -/
def send_loop (kvroute : kvroute_t) : List (string × kvmsg) → socket_t → Except fault socket_t
  | [], socket => .ok socket
  | kv :: rest, socket =>
    match subtree_test kv.1 kvroute.subtree with
    | .error e => .error e
    | .ok true => send_loop kvroute rest (kv.2.send (s_sendmore socket kvroute.identity))
    | .ok false => send_loop kvroute rest socket

/-- The function `s_send_snapshot` of clonesrv4.h:19-27. Both arguments are
passed by reference, so the result holds their final values, then the
returned `int`; an exception leaves the function early. -/
def s_send_snapshot (kvmap : unordered_map kvmsg) (kvroute : kvroute_t) :
    Except fault (unordered_map kvmsg × kvroute_t × Int) :=
  match send_loop kvroute kvmap.entries kvroute.socket with
  | .error e => .error e
  | .ok socket => .ok (kvmap, { kvroute with socket := socket }, 0)

end clonesrv4

/-- The store of Scenario B of the specification, `{"a.1":"v1","b.1":"v2"}`:
two records, with sequence numbers 1 and 2, each stored under its key. -/
def scenarioB_store : unordered_map kvmsg :=
  ⟨[([97, 46, 49], ⟨[97, 46, 49], [118, 49], 1⟩),
    ([98, 46, 49], ⟨[98, 46, 49], [118, 50], 2⟩)], by decide⟩

/-- The route of Scenario B: a fresh socket, the requester identity `"c"`
and the subtree `"a."`. -/
def scenarioB_route : clonesrv4.kvroute_t := ⟨⟨[]⟩, [99], [97, 46]⟩

/-! ## The publish loop (clonesrv1.cpp) -/

/-- Decimal digits of `n`, most significant first, put in front of `acc`;
`fuel` bounds the number of digits. -/
def digitsAux : Nat → Nat → List byte → List byte
  | 0, _, acc => acc
  | fuel + 1, n, acc =>
    if n / 10 = 0 then Fin.ofNat (48 + n % 10) :: acc
    else digitsAux fuel (n / 10) (Fin.ofNat (48 + n % 10) :: acc)

/-- The function `std::to_string(int)`: decimal digits, with a leading `-`
(byte 45) for a negative number. -/
def to_string (x : Int) : string :=
  if x < 0 then 45 :: digitsAux (x.natAbs + 1) x.natAbs []
  else digitsAux (x.natAbs + 1) x.natAbs []

/-- Construction of a `ustring` from `(unsigned char *)body.c_str()`
(clonesrv1.cpp:24): the bytes up to the first NUL. -/
def ustring_of_cstr (s : string) : ustring := s.takeWhile (fun b => b ≠ 0)

namespace clonesrv1

/-- The variables of `main` that the loop reads and writes
(clonesrv1.cpp:10, 15, 16). -/
structure state where
  publisher : socket_t
  kvmap : unordered_map string
  sequence : Int

/-- The state on entry to the loop: nothing sent, `kvmap` empty, `sequence = 0`. -/
def init : state := ⟨⟨[]⟩, ⟨[], List.nodup_nil⟩, 0⟩

/-- One iteration of the loop body (clonesrv1.cpp:22-28). `draw` holds the two
numbers returned by `within(10000)` and `within(1000000)`. -/
def step (draw : Int × Int) (s : state) : state :=
  let key := to_string draw.1
  let body := to_string draw.2
  let kv := kvmsg.new key s.sequence (ustring_of_cstr body)
  { publisher := kv.send s.publisher
    kvmap := s.kvmap.assign key body
    sequence := wrap64 (s.sequence + 1) }

/-- The state of `main` when the loop has run `n` iterations
(`s_interrupted` becomes set during the `n`-th); `draws i` holds the random
numbers drawn in iteration `i`. -/
def main (draws : Nat → Int × Int) : Nat → state
  | 0 => init
  | n + 1 => step (draws n) (main draws n)

/-- The records subscribers receive: the messages delivered from the
publisher's frame stream, decoded. -/
def published (s : state) : List kvmsg :=
  (messages s.publisher.sent).filterMap kvmsg.recv

/-- The record built and sent in iteration `i` (clonesrv1.cpp:22-25), given
the value of `sequence` then. -/
def update (draws : Nat → Int × Int) (i : Nat) : kvmsg :=
  kvmsg.new (to_string (draws i).1) (main draws i).sequence
    (ustring_of_cstr (to_string (draws i).2))

/-- A run of draws in which every key is 0 and the body is 0 in the
first `2^63` iterations and 1 afterwards. -/
def late_draws : Nat → Int × Int :=
  fun i => (0, if i < 9223372036854775808 then 0 else 1)

end clonesrv1

/-! ## The codec contract of the specification -/

/-- The two codec failures of spec 4.1 and 7. -/
inductive codec_error where
  | MalformedMessage
  | KeyTooLong
deriving DecidableEq, Repr

/-- Modelled from the spec: a valid update record of spec 3 without
properties: the key is "non-empty, bounded length", the sequence a 64-bit
signed integer. -/
def kvmsg.valid (r : kvmsg) : Prop :=
  r.key_ ≠ [] ∧ r.key_.length ≤ kvmsg_key_max ∧
    -9223372036854775808 ≤ r.sequence_ ∧ r.sequence_ < 9223372036854775808

instance (r : kvmsg) : Decidable r.valid := by
  unfold kvmsg.valid
  infer_instance

/-- Modelled from the spec: `encode` of spec 4.1: "key length exceeding the
configured maximum fails with KeyTooLong (enforced on encode)", otherwise the
frames are those `kvmsg::send` writes. -/
def encode (r : kvmsg) : Except codec_error (List (List byte)) :=
  if kvmsg_key_max < r.key_.length then .error .KeyTooLong
  else .ok (r.frames.map frame.data)

/-- Modelled from the spec: `decode` of spec 4.1: `kvmsg::recv`, with
`MalformedMessage` where it returns no record. -/
def decode (msg : List (List byte)) : Except codec_error kvmsg :=
  match kvmsg.recv msg with
  | some r => .ok r
  | none => .error .MalformedMessage

/-! ## The subtree test of clonesrv4.h -/

theorem string_at_lt (s : string) (i : Nat) (h : i < s.length) :
    string.at s i = .ok s[i] := by
  simp [string.at, List.getElem?_eq_getElem h]

theorem traits_compare_ok (s t : string) : ∀ (n ps pt : Nat),
    ps + n ≤ s.length → pt + n ≤ t.length →
    ∃ r, traits_compare s ps t pt n = .ok r ∧
      (r = 0 ↔ (s.drop ps).take n = (t.drop pt).take n) := by
  intro n
  induction n with
  | zero => intro ps pt _ _; exact ⟨0, rfl, by simp⟩
  | succ n ih =>
    intro ps pt hs ht
    have h1 : ps < s.length := by omega
    have h2 : pt < t.length := by omega
    have e1 : s.drop ps = s[ps] :: s.drop (ps + 1) := List.drop_eq_getElem_cons h1
    have e2 : t.drop pt = t[pt] :: t.drop (pt + 1) := List.drop_eq_getElem_cons h2
    simp only [traits_compare, string_at_lt s ps h1, string_at_lt t pt h2, e1, e2,
      List.take_succ_cons, List.cons.injEq]
    by_cases hlt : s[ps] < t[pt]
    · refine ⟨-1, by rw [if_pos hlt], ?_⟩
      constructor
      · intro h; omega
      · intro h; exact absurd (h.1 ▸ hlt) (lt_irrefl _)
    · by_cases hgt : t[pt] < s[ps]
      · refine ⟨1, by rw [if_neg hlt, if_pos hgt], ?_⟩
        constructor
        · intro h; omega
        · intro h; exact absurd (h.1 ▸ hgt) (lt_irrefl _)
      · have heq : s[ps] = t[pt] := le_antisymm (not_lt.mp hgt) (not_lt.mp hlt)
        obtain ⟨r, hr, hiff⟩ := ih (ps + 1) (pt + 1) (by omega) (by omega)
        refine ⟨r, by rw [if_neg hlt, if_neg hgt, hr], ?_⟩
        rw [hiff]
        constructor
        · intro h; exact ⟨heq, h⟩
        · intro h; exact h.2

theorem compare_zero_ok (key subtree : string) :
    ∃ r, string.compare key 0 subtree.length subtree = .ok r ∧
      (r = 0 ↔ subtree.length ≤ key.length ∧ key.take subtree.length = subtree) := by
  obtain ⟨r, hr, hiff⟩ := traits_compare_ok key subtree
    (min (min subtree.length (key.length - 0)) subtree.length) 0 0
    (by omega) (by omega)
  simp only [List.drop_zero] at hiff
  unfold string.compare
  simp only [gt_iff_lt, Nat.not_lt_zero, if_false, hr]
  by_cases hlen : subtree.length ≤ key.length
  · have e : min (min subtree.length (key.length - 0)) subtree.length = subtree.length := by
      simp; omega
    rw [e, List.take_length] at hiff
    have e2 : min subtree.length (key.length - 0) = subtree.length := by simp; omega
    by_cases h0 : r = 0
    · refine ⟨0, ?_, by simp [hlen, hiff.mp h0]⟩
      simp [h0, e2, hlen]
    · refine ⟨r, by simp [h0], ?_⟩
      constructor
      · intro h; exact absurd h h0
      · intro h; exact hiff.mpr h.2
  · have e2 : min subtree.length (key.length - 0) = key.length := by simp; omega
    have hlt : key.length < subtree.length := by omega
    by_cases h0 : r = 0
    · refine ⟨-1, by simp [h0, e2, hlt], ?_⟩
      constructor
      · intro h; omega
      · intro h; exact absurd h.1 hlen
    · refine ⟨r, by simp [h0], ?_⟩
      constructor
      · intro h; exact absurd h h0
      · intro h; exact absurd h.1 hlen

theorem take_eq_iff_isPrefix (key subtree : string) :
    (subtree.length ≤ key.length ∧ key.take subtree.length = subtree) ↔ subtree <+: key := by
  constructor
  · intro ⟨_, h⟩
    exact h ▸ List.take_prefix _ _
  · intro h
    exact ⟨h.length_le, List.prefix_iff_eq_take.mp h |>.symm⟩

theorem subtree_test_eq (key subtree : string) :
    clonesrv4.subtree_test key subtree = .ok (decide (subtree <+: key)) := by
  obtain ⟨r, hr, hiff⟩ := compare_zero_ok key subtree
  unfold clonesrv4.subtree_test
  by_cases hlen : subtree.length ≤ key.length
  · simp only [hlen, if_true, hr]
    congr 1
    by_cases h0 : r = 0
    · have : subtree <+: key := (take_eq_iff_isPrefix key subtree).mp (hiff.mp h0)
      simp [h0, this]
    · have : ¬ subtree <+: key :=
        fun h => h0 (hiff.mpr ((take_eq_iff_isPrefix key subtree).mpr h))
      simp [h0, this]
  · have : ¬ subtree <+: key := fun h => hlen h.length_le
    simp [hlen, this]

/-! ## The snapshot loops, in closed form -/

theorem messagesAux_addressed (identity : string) (l : List (string × kvmsg)) :
    messagesAux (l.flatMap (fun kv => addressed identity kv.2)) [] =
      l.map (fun kv => addressed_msg identity kv.2) := by
  induction l with
  | nil => rfl
  | cons kv rest ih =>
    rw [List.flatMap_cons, List.map_cons, ← ih]
    simp [addressed, addressed_msg, kvmsg.frames, messagesAux]

theorem send_loop3_sent (identity : string) (l : List (string × kvmsg)) (socket : socket_t) :
    (clonesrv3.send_loop identity l socket).sent =
      socket.sent ++ l.flatMap (fun kv => addressed identity kv.2) := by
  induction l generalizing socket with
  | nil => simp [clonesrv3.send_loop]
  | cons kv rest ih =>
    simp [clonesrv3.send_loop, ih, kvmsg.send, s_sendmore, addressed]

theorem send_loop4_eq (kvroute : clonesrv4.kvroute_t) (l : List (string × kvmsg))
    (socket : socket_t) :
    clonesrv4.send_loop kvroute l socket =
      .ok ⟨socket.sent ++ (l.filter (fun kv => decide (kvroute.subtree <+: kv.1))).flatMap
        (fun kv => addressed kvroute.identity kv.2)⟩ := by
  induction l generalizing socket with
  | nil => simp [clonesrv4.send_loop]
  | cons kv rest ih =>
    by_cases h : kvroute.subtree <+: kv.1
    · simp [clonesrv4.send_loop, subtree_test_eq, h, ih, kvmsg.send, s_sendmore, addressed]
    · simp [clonesrv4.send_loop, subtree_test_eq, h, ih]

theorem entries_nodup {V : Type} (m : unordered_map V) : m.entries.Nodup :=
  List.Nodup.of_map _ m.nodup

/-! ## Properties of the snapshot duty -/

/-- C10: the subtree test of clonesrv4.h:21 is total and exact. For every key
and subtree the call `key.compare(0, subtree.size(), subtree)` returns a value
(neither the out-of-range exception nor a read outside a buffer), the whole
condition evaluates to true exactly when the subtree is an initial segment of
the key, and a subtree strictly longer than the key never matches; the empty
key and the empty subtree are covered. -/
theorem subtree_test_total_exact (key subtree : string) :
    (∃ r, string.compare key 0 subtree.length subtree = .ok r) ∧
    clonesrv4.subtree_test key subtree = .ok (decide (subtree <+: key)) ∧
    (key.length < subtree.length → clonesrv4.subtree_test key subtree = .ok false) ∧
    clonesrv4.subtree_test [] [] = .ok true ∧
    clonesrv4.subtree_test key [] = .ok true ∧
    clonesrv4.subtree_test [] (97 :: subtree) = .ok false ∧
    clonesrv4.subtree_test [97, 46] [97, 46, 49] = .ok false := by
  refine ⟨?_, subtree_test_eq key subtree, ?_, ?_, ?_, ?_, ?_⟩
  · obtain ⟨r, hr, _⟩ := compare_zero_ok key subtree
    exact ⟨r, hr⟩
  · intro h
    have : ¬ subtree <+: key := fun hp => by have := hp.length_le; omega
    simp [subtree_test_eq, this]
  · simp [subtree_test_eq]
  · simp [subtree_test_eq]
  · simp [subtree_test_eq]
  · rfl

/-- C1: the subtree-filtered `s_send_snapshot` of clonesrv4.h returns normally
and sends, each addressed to the requester, a duplicate-free subsequence `sent`
of the entries of `kvmap`; an entry belongs to `sent` exactly when it is an
entry of `kvmap` whose key starts with `kvroute.subtree`. So a record is sent
if and only if its key starts with the subtree, and then exactly once. For the
store `{"a.1":"v1","b.1":"v2"}` and the subtree `"a."` the one message sent is
the record of `"a.1"`. -/
theorem s_send_snapshot4_subtree (kvmap : unordered_map kvmsg)
    (kvroute : clonesrv4.kvroute_t) :
    (∃ sent : List (string × kvmsg),
      clonesrv4.s_send_snapshot kvmap kvroute =
        .ok (kvmap, { kvroute with socket := ⟨kvroute.socket.sent ++
          sent.flatMap (fun kv => addressed kvroute.identity kv.2)⟩ }, 0) ∧
      sent.Nodup ∧ sent.Sublist kvmap.entries ∧
      (∀ kv, kv ∈ sent ↔ kv ∈ kvmap.entries ∧ kvroute.subtree <+: kv.1)) ∧
    (clonesrv4.s_send_snapshot scenarioB_store scenarioB_route).map
        (fun r => messages r.2.1.socket.sent) =
      .ok [[[99], [97, 46, 49], [0, 0, 0, 0, 0, 0, 0, 1], [118, 49]]] := by
  constructor
  · refine ⟨kvmap.entries.filter (fun kv => decide (kvroute.subtree <+: kv.1)), ?_,
      (entries_nodup kvmap).filter _, List.filter_sublist _, ?_⟩
    · simp [clonesrv4.s_send_snapshot, send_loop4_eq]
    · intro kv
      simp [List.mem_filter]
  · rfl

/-- C4: each record `s_send_snapshot` sends is individually framed and
addressed to the requester, in clonesrv3.h and in clonesrv4.h alike. The frames
appended to the socket are the concatenation, over the entries sent, of one
group per entry: the identity frame `kvroute.identity`, flagged "more",
directly followed by the frames of that entry's record; and the frame stream
delivers one message per entry sent, made of the identity and the parts of that
record. -/
theorem s_send_snapshot_addressed (kvmap : unordered_map kvmsg)
    (route3 : clonesrv3.kvroute_t) (route4 : clonesrv4.kvroute_t) :
    ((clonesrv3.s_send_snapshot kvmap route3).2.1.socket.sent =
        route3.socket.sent ++
          kvmap.entries.flatMap (fun kv => (⟨route3.identity, true⟩ : frame) :: kv.2.frames) ∧
      messages (kvmap.entries.flatMap
          (fun kv => (⟨route3.identity, true⟩ : frame) :: kv.2.frames)) =
        kvmap.entries.map (fun kv => route3.identity :: kv.2.frames.map frame.data)) ∧
    (∃ (sent : List (string × kvmsg)) (socket : socket_t),
      sent.Sublist kvmap.entries ∧
      clonesrv4.s_send_snapshot kvmap route4 =
        .ok (kvmap, { route4 with socket := socket }, 0) ∧
      socket.sent = route4.socket.sent ++
        sent.flatMap (fun kv => (⟨route4.identity, true⟩ : frame) :: kv.2.frames) ∧
      messages (sent.flatMap (fun kv => (⟨route4.identity, true⟩ : frame) :: kv.2.frames)) =
        sent.map (fun kv => route4.identity :: kv.2.frames.map frame.data)) := by
  refine ⟨⟨?_, ?_⟩, ?_⟩
  · exact send_loop3_sent route3.identity kvmap.entries route3.socket
  · exact messagesAux_addressed route3.identity kvmap.entries
  · refine ⟨kvmap.entries.filter (fun kv => decide (route4.subtree <+: kv.1)), _,
      List.filter_sublist _, ?_, rfl, ?_⟩
    · simp only [clonesrv4.s_send_snapshot, send_loop4_eq]
      rfl
    · exact messagesAux_addressed route4.identity _

/-- C5: an empty filter means all records. Called with `subtree = ""`, the
filtered `s_send_snapshot` of clonesrv4.h returns normally, with the same
return value, the same store and a socket holding exactly the frames that the
unfiltered `s_send_snapshot` of clonesrv3.h leaves on it for the same store,
socket and identity. -/
theorem s_send_snapshot4_empty_subtree (kvmap : unordered_map kvmsg) (socket : socket_t)
    (identity : string) :
    clonesrv4.s_send_snapshot kvmap ⟨socket, identity, []⟩ =
      .ok ((clonesrv3.s_send_snapshot kvmap ⟨socket, identity⟩).1,
        ⟨(clonesrv3.s_send_snapshot kvmap ⟨socket, identity⟩).2.1.socket, identity, []⟩,
        (clonesrv3.s_send_snapshot kvmap ⟨socket, identity⟩).2.2) := by
  have h : (clonesrv3.send_loop identity kvmap.entries socket) =
      ⟨socket.sent ++ kvmap.entries.flatMap (fun kv => addressed identity kv.2)⟩ := by
    have := send_loop3_sent identity kvmap.entries socket
    cases hs : clonesrv3.send_loop identity kvmap.entries socket
    rw [hs] at this
    simpa using this
  simp [clonesrv4.s_send_snapshot, clonesrv3.s_send_snapshot, send_loop4_eq, h]

/-- C8: a snapshot is finite, restartable and leaves the store alone. The
function `s_send_snapshot` of clonesrv3.h is total; it returns 0 with `kvmap`
unchanged, having sent one addressed message per entry of `kvmap`, as many
messages as `kvmap.size()`, the entries being pairwise distinct; and a second
call on the store and route it leaves behind sends the same frames once more. -/
theorem s_send_snapshot3_restartable (kvmap : unordered_map kvmsg)
    (kvroute : clonesrv3.kvroute_t) :
    (clonesrv3.s_send_snapshot kvmap kvroute).1 = kvmap ∧
    (clonesrv3.s_send_snapshot kvmap kvroute).2.2 = 0 ∧
    (clonesrv3.s_send_snapshot kvmap kvroute).2.1.socket.sent =
      kvroute.socket.sent ++ kvmap.entries.flatMap (fun kv => addressed kvroute.identity kv.2) ∧
    kvmap.entries.Nodup ∧
    messages (kvmap.entries.flatMap (fun kv => addressed kvroute.identity kv.2)) =
      kvmap.entries.map (fun kv => addressed_msg kvroute.identity kv.2) ∧
    (messages (kvmap.entries.flatMap (fun kv => addressed kvroute.identity kv.2))).length =
      kvmap.size ∧
    (clonesrv3.s_send_snapshot (clonesrv3.s_send_snapshot kvmap kvroute).1
        (clonesrv3.s_send_snapshot kvmap kvroute).2.1).1 = kvmap ∧
    (clonesrv3.s_send_snapshot (clonesrv3.s_send_snapshot kvmap kvroute).1
        (clonesrv3.s_send_snapshot kvmap kvroute).2.1).2.1.socket.sent =
      (clonesrv3.s_send_snapshot kvmap kvroute).2.1.socket.sent ++
        kvmap.entries.flatMap (fun kv => addressed kvroute.identity kv.2) := by
  have hm := messagesAux_addressed kvroute.identity kvmap.entries
  refine ⟨rfl, rfl, send_loop3_sent _ _ _, entries_nodup kvmap, hm, ?_, rfl, ?_⟩
  · unfold messages
    rw [hm]
    simp [unordered_map.size]
  · exact send_loop3_sent _ _ _

/-! ## Sequence numbers on the wire -/

theorem wrap64_range (x : Int) :
    -9223372036854775808 ≤ wrap64 x ∧ wrap64 x < 9223372036854775808 := by
  unfold wrap64
  norm_num
  omega

theorem wrap64_id (x : Int) (h1 : -9223372036854775808 ≤ x) (h2 : x < 9223372036854775808) :
    wrap64 x = x := by
  unfold wrap64
  norm_num
  omega

theorem wrap64_succ (x : Int) : wrap64 (wrap64 x + 1) = wrap64 (x + 1) := by
  unfold wrap64
  norm_num
  omega

theorem byte_ofNat_val (a : Nat) : ((Fin.ofNat a : byte)).val = a % 256 := rfl

theorem bytes_seq_seq_bytes (x : Int) (h1 : -9223372036854775808 ≤ x)
    (h2 : x < 9223372036854775808) : bytes_seq (seq_bytes x) = x := by
  obtain ⟨u, hu⟩ : ∃ u : Nat, (x % 18446744073709551616).toNat = u := ⟨_, rfl⟩
  have hx : (u : Int) = x % 18446744073709551616 := by
    rw [← hu]; exact Int.toNat_of_nonneg (Int.emod_nonneg _ (by norm_num))
  have hu2 : u < 18446744073709551616 := by omega
  unfold bytes_seq seq_bytes
  rw [hu]
  simp only [List.foldl_cons, List.foldl_nil, byte_ofNat_val]
  split <;> omega

theorem recv_frames (r : kvmsg) (h1 : -9223372036854775808 ≤ r.sequence_)
    (h2 : r.sequence_ < 9223372036854775808) :
    kvmsg.recv (r.frames.map frame.data) = some r := by
  have hl : (seq_bytes r.sequence_).length = 8 := rfl
  simp [kvmsg.recv, kvmsg.frames, hl, bytes_seq_seq_bytes _ h1 h2]

theorem messagesAux_frames (l : List kvmsg) :
    messagesAux (l.flatMap kvmsg.frames) [] = l.map (fun r => r.frames.map frame.data) := by
  induction l with
  | nil => rfl
  | cons r rest ih =>
    rw [List.flatMap_cons, List.map_cons, ← ih]
    simp [kvmsg.frames, messagesAux]

theorem filterMap_recv (l : List kvmsg)
    (h : ∀ r ∈ l, -9223372036854775808 ≤ r.sequence_ ∧ r.sequence_ < 9223372036854775808) :
    (l.map (fun r => r.frames.map frame.data)).filterMap kvmsg.recv = l := by
  induction l with
  | nil => rfl
  | cons r rest ih =>
    have hr := h r (List.mem_cons_self _ _)
    rw [List.map_cons, List.filterMap_cons, recv_frames r hr.1 hr.2]
    simp only
    rw [ih (fun r hr => h r (List.mem_cons_of_mem _ hr))]

/-! ## The publish loop, in closed form -/

theorem main_sequence (draws : Nat → Int × Int) (n : Nat) :
    (clonesrv1.main draws n).sequence = wrap64 n := by
  induction n with
  | zero => rfl
  | succ n ih =>
    simp only [clonesrv1.main, clonesrv1.step, ih, wrap64_succ]
    push_cast
    rfl

theorem update_sequence (draws : Nat → Int × Int) (i : Nat) :
    (clonesrv1.update draws i).sequence_ = wrap64 i := by
  simp [clonesrv1.update, kvmsg.new, main_sequence]

theorem main_sent (draws : Nat → Int × Int) (n : Nat) :
    (clonesrv1.main draws n).publisher.sent =
      ((List.range n).map (clonesrv1.update draws)).flatMap kvmsg.frames := by
  induction n with
  | zero => rfl
  | succ n ih =>
    rw [List.range_succ, List.map_append, List.flatMap_append, ← ih]
    simp [clonesrv1.main, clonesrv1.step, kvmsg.send, clonesrv1.update]

theorem published_main (draws : Nat → Int × Int) (n : Nat) :
    clonesrv1.published (clonesrv1.main draws n) =
      (List.range n).map (clonesrv1.update draws) := by
  unfold clonesrv1.published messages
  rw [main_sent, messagesAux_frames]
  apply filterMap_recv
  intro r hr
  obtain ⟨i, _, rfl⟩ := List.mem_map.mp hr
  rw [update_sequence]
  exact wrap64_range _

theorem pairwise_range_rel (R : Nat → Nat → Prop) (n a b : Nat) (hab : a < b) (hbn : b < n)
    (hp : List.Pairwise R (List.range n)) : R a b := by
  have h := List.pairwise_iff_getElem.mp hp a b (by simp; omega) (by simp; omega) hab
  simpa using h

theorem sequence_wraps_at (draws : Nat → Int × Int) (n : Nat)
    (hn : n = 9223372036854775809) :
    ¬ List.Pairwise (fun a b => a < b)
      ((clonesrv1.published (clonesrv1.main draws n)).map kvmsg.sequence_) := by
  rw [published_main, List.map_map, List.pairwise_map]
  intro h
  have h1 := pairwise_range_rel _ n (n - 2) (n - 1) (by omega) (by omega) h
  simp only [Function.comp, update_sequence] at h1
  unfold wrap64 at h1
  norm_num at h1
  omega

/-! ## Properties of the publish loop: sequence numbers -/

/-- C2, as amended: for any number `n ≤ 2^63` of iterations of the clonesrv1
publish loop, the sequence numbers carried by the successively published
messages are strictly increasing, hence without repeats. -/
theorem publish_sequence_increasing (draws : Nat → Int × Int) (n : Nat)
    (hn : n ≤ 9223372036854775808) :
    List.Pairwise (fun a b => a < b)
      ((clonesrv1.published (clonesrv1.main draws n)).map kvmsg.sequence_) := by
  rw [published_main, List.map_map, List.pairwise_map]
  refine (List.pairwise_lt_range n).imp_of_mem ?_
  intro a b ha hb hab
  have ha2 := List.mem_range.mp ha
  have hb2 := List.mem_range.mp hb
  simp only [Function.comp, update_sequence]
  rw [wrap64_id a (by omega) (by omega), wrap64_id b (by omega) (by omega)]
  exact_mod_cast hab

/-- Witness of C2 as amended: three iterations. -/
theorem publish_sequence_increasing_witness :
    (3 : Nat) ≤ 9223372036854775808 ∧
    List.Pairwise (fun a b => a < b)
      ((clonesrv1.published (clonesrv1.main (fun i => (i, 7)) 3)).map kvmsg.sequence_) :=
  ⟨by norm_num, publish_sequence_increasing (fun i => (i, 7)) 3 (by norm_num)⟩

/-- C2 as stated fails: after `2^63 + 1` iterations the published sequence
numbers are not strictly increasing. The message of iteration `2^63 - 1`
carries `2^63 - 1`, the largest `int64_t`, and the next one carries `-2^63`. -/
theorem publish_sequence_wraps :
    ¬ List.Pairwise (fun a b => a < b)
      ((clonesrv1.published
        (clonesrv1.main (fun _ => (0, 0)) 9223372036854775809)).map kvmsg.sequence_) := by
  exact sequence_wraps_at _ 9223372036854775809 rfl

/-- C9: in the clonesrv1 publish loop run for `n < 2^63` iterations, the
`i`-th published message (counting from 0) carries sequence number `i`, so the
first one carries 0; `n` messages have been published; and the count
`sequence` reported on exit equals `n`. -/
theorem publish_sequence_counts (draws : Nat → Int × Int) (n : Nat)
    (hn : n < 9223372036854775808) :
    (clonesrv1.published (clonesrv1.main draws n)).map kvmsg.sequence_ =
      (List.range n).map Int.ofNat ∧
    (clonesrv1.published (clonesrv1.main draws n)).length = n ∧
    (clonesrv1.main draws n).sequence = n := by
  refine ⟨?_, ?_, ?_⟩
  · rw [published_main, List.map_map]
    apply List.map_congr_left
    intro i hi
    have hi2 := List.mem_range.mp hi
    simp only [Function.comp, update_sequence]
    exact wrap64_id i (by omega) (by omega)
  · simp [published_main]
  · rw [main_sequence]
    exact wrap64_id n (by omega) (by omega)

/-- Witness of C9: three iterations. -/
theorem publish_sequence_counts_witness :
    (3 : Nat) < 9223372036854775808 ∧
    (clonesrv1.published (clonesrv1.main (fun i => (i, 7)) 3)).map kvmsg.sequence_ =
      (List.range 3).map Int.ofNat ∧
    (clonesrv1.published (clonesrv1.main (fun i => (i, 7)) 3)).length = 3 ∧
    (clonesrv1.main (fun i => (i, 7)) 3).sequence = (3 : Nat) :=
  ⟨by norm_num, publish_sequence_counts (fun i => (i, 7)) 3 (by norm_num)⟩

/-! ## Properties of the publish loop: the store -/

theorem find_assignEntries {V : Type} (key : string) (v : V) (k : string)
    (l : List (string × V)) :
    ((assignEntries key v l).find? (fun kv => kv.1 = k)).map Prod.snd =
      if k = key then some v else (l.find? (fun kv => kv.1 = k)).map Prod.snd := by
  induction l with
  | nil =>
    by_cases h : k = key
    · simp [assignEntries, h]
    · have h2 : ¬ key = k := fun e => h e.symm
      simp [assignEntries, h, h2]
  | cons kv rest ih =>
    by_cases hk : kv.1 = key
    · by_cases h : k = key
      · simp [assignEntries, hk, h]
      · have h2 : ¬ key = k := fun e => h e.symm
        simp [assignEntries, hk, h, h2, List.find?_cons]
    · by_cases h1 : kv.1 = k
      · have h : ¬ k = key := fun e => hk (h1.trans e)
        simp [assignEntries, hk, h1, h, List.find?_cons]
      · simp only [assignEntries, hk, if_false, List.find?_cons, h1, decide_False, ih]

theorem find_assign {V : Type} (m : unordered_map V) (key : string) (v : V) (k : string) :
    (m.assign key v).find k = if k = key then some v else m.find k :=
  find_assignEntries key v k m.entries

theorem digit_ne_zero (n : Nat) : (Fin.ofNat (48 + n % 10) : byte) ≠ 0 := by
  intro h
  have := congrArg Fin.val h
  rw [byte_ofNat_val] at this
  simp at this
  omega

theorem digitsAux_no_nul (fuel n : Nat) (acc : List byte) (h : ∀ b ∈ acc, b ≠ 0) :
    ∀ b ∈ digitsAux fuel n acc, b ≠ 0 := by
  induction fuel generalizing n acc with
  | zero => exact h
  | succ fuel ih =>
    have hc : ∀ b ∈ (Fin.ofNat (48 + n % 10) : byte) :: acc, b ≠ 0 := by
      intro b hb
      rcases List.mem_cons.mp hb with rfl | hb
      · exact digit_ne_zero n
      · exact h b hb
    unfold digitsAux
    split
    · exact hc
    · exact ih _ _ hc

theorem to_string_no_nul (x : Int) : ∀ b ∈ to_string x, b ≠ 0 := by
  unfold to_string
  split
  · intro b hb
    rcases List.mem_cons.mp hb with rfl | hb
    · decide
    · exact digitsAux_no_nul _ _ _ (by simp) b hb
  · exact digitsAux_no_nul _ _ _ (by simp)

theorem ustring_of_to_string (x : Int) : ustring_of_cstr (to_string x) = to_string x := by
  unfold ustring_of_cstr
  rw [List.takeWhile_eq_self_iff]
  intro b hb
  simpa using to_string_no_nul x b hb

theorem step_find (draw : Int × Int) (s : clonesrv1.state) (k : string) :
    (clonesrv1.step draw s).kvmap.find k =
      if k = to_string draw.1 then some (to_string draw.2) else s.kvmap.find k := by
  simp [clonesrv1.step, find_assign]

theorem main_find_iff (draws : Nat → Int × Int) (k : string) (b : string) (n : Nat) :
    (clonesrv1.main draws n).kvmap.find k = some b ↔
      ∃ i, i < n ∧ to_string (draws i).1 = k ∧ to_string (draws i).2 = b ∧
        ∀ j, i < j → j < n → to_string (draws j).1 ≠ k := by
  induction n with
  | zero => simp [clonesrv1.main, clonesrv1.init, unordered_map.find]
  | succ n ih =>
    rw [clonesrv1.main, step_find]
    by_cases h : k = to_string (draws n).1
    · rw [if_pos h]
      constructor
      · intro hb
        refine ⟨n, by omega, h.symm, Option.some.inj hb, ?_⟩
        intro j h1 h2; omega
      · rintro ⟨i, hi, hk, hb, hlast⟩
        by_cases hin : i = n
        · subst hin; rw [hb]
        · exact absurd h.symm (hlast n (by omega) (by omega))
    · rw [if_neg h, ih]
      constructor
      · rintro ⟨i, hi, hk, hb, hlast⟩
        refine ⟨i, by omega, hk, hb, ?_⟩
        intro j h1 h2
        by_cases hjn : j = n
        · subst hjn; exact fun e => h e.symm
        · exact hlast j h1 (by omega)
      · rintro ⟨i, hi, hk, hb, hlast⟩
        have hin : i ≠ n := by
          rintro rfl
          exact h hk.symm
        exact ⟨i, by omega, hk, hb, fun j h1 h2 => hlast j h1 (by omega)⟩

theorem main_find_none_iff (draws : Nat → Int × Int) (k : string) (n : Nat) :
    (clonesrv1.main draws n).kvmap.find k = none ↔
      ∀ i, i < n → to_string (draws i).1 ≠ k := by
  induction n with
  | zero => simp [clonesrv1.main, clonesrv1.init, unordered_map.find]
  | succ n ih =>
    rw [clonesrv1.main, step_find]
    by_cases h : k = to_string (draws n).1
    · rw [if_pos h]
      constructor
      · intro hb; exact absurd hb (by simp)
      · intro hall; exact absurd h.symm (hall n (by omega))
    · rw [if_neg h, ih]
      constructor
      · intro hall i hi
        by_cases hin : i = n
        · subst hin; exact fun e => h e.symm
        · exact hall i (by omega)
      · intro hall i hi
        exact hall i (by omega)

theorem update_key (draws : Nat → Int × Int) (i : Nat) :
    (clonesrv1.update draws i).key_ = to_string (draws i).1 := rfl

theorem update_body (draws : Nat → Int × Int) (i : Nat) :
    (clonesrv1.update draws i).body_ = to_string (draws i).2 :=
  ustring_of_to_string _

theorem mem_published (draws : Nat → Int × Int) (n : Nat) (m : kvmsg) :
    m ∈ clonesrv1.published (clonesrv1.main draws n) ↔
      ∃ i, i < n ∧ clonesrv1.update draws i = m := by
  rw [published_main, List.mem_map]
  constructor
  · rintro ⟨i, hi, e⟩; exact ⟨i, List.mem_range.mp hi, e⟩
  · rintro ⟨i, hi, e⟩; exact ⟨i, List.mem_range.mpr hi, e⟩

theorem wrap64_le_iff (a b : Nat) (ha : a < 9223372036854775808)
    (hb : b < 9223372036854775808) : wrap64 a ≤ wrap64 b ↔ a ≤ b := by
  rw [wrap64_id a (by omega) (by omega), wrap64_id b (by omega) (by omega)]
  exact Int.ofNat_le

/-- C6, as amended: after any number of iterations of the clonesrv1 publish
loop, `kvmap` contains exactly the keys that have been published; and while at
most `2^63` iterations have run, for every such key `k`, `kvmap[k]` is the
body of the published message with the highest sequence number among the
messages with key `k`. -/
theorem store_latest_update (draws : Nat → Int × Int) (n : Nat) (k : string) :
    (((clonesrv1.main draws n).kvmap.find k).isSome ↔
      ∃ m ∈ clonesrv1.published (clonesrv1.main draws n), m.key_ = k) ∧
    (n ≤ 9223372036854775808 →
      (∀ m ∈ clonesrv1.published (clonesrv1.main draws n), m.key_ = k →
        (∀ m2 ∈ clonesrv1.published (clonesrv1.main draws n), m2.key_ = k →
          m2.sequence_ ≤ m.sequence_) →
        (clonesrv1.main draws n).kvmap.find k = some m.body_) ∧
      (∀ b, (clonesrv1.main draws n).kvmap.find k = some b →
        ∃ m ∈ clonesrv1.published (clonesrv1.main draws n), m.key_ = k ∧ m.body_ = b ∧
          ∀ m2 ∈ clonesrv1.published (clonesrv1.main draws n), m2.key_ = k →
            m2.sequence_ ≤ m.sequence_)) := by
  refine ⟨?_, fun hn => ⟨?_, ?_⟩⟩
  · rw [← Option.ne_none_iff_isSome, Ne, main_find_none_iff]
    constructor
    · intro h
      by_contra hcon
      apply h
      intro i hi hk
      exact hcon ⟨clonesrv1.update draws i, (mem_published _ _ _).mpr ⟨i, hi, rfl⟩, hk⟩
    · rintro ⟨m, hm, hk⟩ hall
      obtain ⟨i, hi, rfl⟩ := (mem_published _ _ _).mp hm
      exact hall i hi hk
  · intro m hm hk hmax
    obtain ⟨i, hi, rfl⟩ := (mem_published _ _ _).mp hm
    rw [main_find_iff]
    refine ⟨i, hi, hk, (update_body draws i).symm, ?_⟩
    intro j hij hjn hkj
    have h := hmax (clonesrv1.update draws j) ((mem_published _ _ _).mpr ⟨j, hjn, rfl⟩) hkj
    rw [update_sequence, update_sequence, wrap64_le_iff j i (by omega) (by omega)] at h
    omega
  · intro b hb
    obtain ⟨i, hi, hk, hbody, hlast⟩ := (main_find_iff draws k b n).mp hb
    refine ⟨clonesrv1.update draws i, (mem_published _ _ _).mpr ⟨i, hi, rfl⟩, hk,
      (update_body draws i).trans hbody, ?_⟩
    intro m2 hm2 hk2
    obtain ⟨j, hj, rfl⟩ := (mem_published _ _ _).mp hm2
    rw [update_sequence, update_sequence, wrap64_le_iff j i (by omega) (by omega)]
    by_contra hcon
    exact hlast j (by omega) hj hk2

/-- Witness of C6 as amended: three iterations, key `"0"`. -/
theorem store_latest_update_witness :
    (3 : Nat) ≤ 9223372036854775808 ∧
    (((clonesrv1.main (fun i => (0, i)) 3).kvmap.find [48]).isSome ↔
      ∃ m ∈ clonesrv1.published (clonesrv1.main (fun i => (0, i)) 3), m.key_ = [48]) ∧
    (∀ m ∈ clonesrv1.published (clonesrv1.main (fun i => (0, i)) 3), m.key_ = [48] →
      (∀ m2 ∈ clonesrv1.published (clonesrv1.main (fun i => (0, i)) 3), m2.key_ = [48] →
        m2.sequence_ ≤ m.sequence_) →
      (clonesrv1.main (fun i => (0, i)) 3).kvmap.find [48] = some m.body_) ∧
    (∀ b, (clonesrv1.main (fun i => (0, i)) 3).kvmap.find [48] = some b →
      ∃ m ∈ clonesrv1.published (clonesrv1.main (fun i => (0, i)) 3),
        m.key_ = [48] ∧ m.body_ = b ∧
        ∀ m2 ∈ clonesrv1.published (clonesrv1.main (fun i => (0, i)) 3), m2.key_ = [48] →
          m2.sequence_ ≤ m.sequence_) :=
  ⟨by norm_num, (store_latest_update (fun i => (0, i)) 3 [48]).1,
    (store_latest_update (fun i => (0, i)) 3 [48]).2 (by norm_num)⟩

theorem store_not_highest_at (n : Nat) (hn : n = 9223372036854775809) :
    ∃ m ∈ clonesrv1.published (clonesrv1.main clonesrv1.late_draws n),
      m.key_ = [48] ∧
      (∀ m2 ∈ clonesrv1.published (clonesrv1.main clonesrv1.late_draws n), m2.key_ = [48] →
        m2.sequence_ ≤ m.sequence_) ∧
      (clonesrv1.main clonesrv1.late_draws n).kvmap.find [48] ≠ some m.body_ := by
  have hkey : ∀ i, to_string (clonesrv1.late_draws i).1 = [48] := by
    intro i
    show to_string 0 = [48]
    decide
  have hb1 : to_string (clonesrv1.late_draws (n - 2)).2 = [48] := by
    have : n - 2 < 9223372036854775808 := by omega
    simp only [clonesrv1.late_draws, this, if_true]
    decide
  have hb2 : to_string (clonesrv1.late_draws (n - 1)).2 = [49] := by
    have : ¬ n - 1 < 9223372036854775808 := by omega
    simp only [clonesrv1.late_draws, this, if_false]
    decide
  refine ⟨clonesrv1.update clonesrv1.late_draws (n - 2),
    (mem_published _ _ _).mpr ⟨n - 2, by omega, rfl⟩, hkey _, ?_, ?_⟩
  · intro m2 _ _
    have h1 := (wrap64_range m2.sequence_)
    rw [update_sequence, wrap64_id (↑(n - 2)) (by omega) (by omega)]
    obtain ⟨j, _, rfl⟩ := (mem_published _ _ _).mp ‹_›
    rw [update_sequence]
    have h2 := wrap64_range (j : Int)
    omega
  · have hfind : (clonesrv1.main clonesrv1.late_draws n).kvmap.find [48] = some [49] := by
      rw [main_find_iff]
      exact ⟨n - 1, by omega, hkey _, hb2, fun j h1 h2 => by omega⟩
    rw [hfind, update_body, hb1]
    decide

/-- C6 as stated fails: after `2^63 + 1` iterations that all publish key `"0"`,
with body `"0"` in the first `2^63` iterations and body `"1"` in the last, the
message with the highest sequence number among those with key `"0"` is not the
one whose body `kvmap["0"]` holds. -/
theorem store_not_highest :
    ∃ m ∈ clonesrv1.published (clonesrv1.main clonesrv1.late_draws 9223372036854775809),
      m.key_ = [48] ∧
      (∀ m2 ∈ clonesrv1.published (clonesrv1.main clonesrv1.late_draws 9223372036854775809),
        m2.key_ = [48] → m2.sequence_ ≤ m.sequence_) ∧
      (clonesrv1.main clonesrv1.late_draws 9223372036854775809).kvmap.find [48] ≠
        some m.body_ :=
  store_not_highest_at 9223372036854775809 rfl

/-- C3: for every valid kvmsg record `r`, encoding succeeds with the three
frames `kvmsg::send` writes, these frames are delivered as one message, and
decoding that message (`kvmsg::recv`) yields `r` again, with the same key,
sequence and body. -/
theorem kvmsg_roundtrip (r : kvmsg) (h : r.valid) :
    (∃ msg, encode r = .ok msg ∧ decode msg = .ok r) ∧
    messages (r.send ⟨[]⟩).sent = [r.frames.map frame.data] ∧
    kvmsg.recv (r.frames.map frame.data) = some r := by
  obtain ⟨_, hlen, h1, h2⟩ := h
  have hrecv := recv_frames r h1 h2
  refine ⟨⟨r.frames.map frame.data, ?_, ?_⟩, ?_, hrecv⟩
  · have : ¬ kvmsg_key_max < r.key_.length := by omega
    simp [encode, this]
  · simp [decode, hrecv]
  · simp [kvmsg.send, kvmsg.frames, messages, messagesAux]

/-- Witness of C3: the record of key `"a.1"`, sequence 1, body `"v1"`. -/
theorem kvmsg_roundtrip_witness :
    kvmsg.valid ⟨[97, 46, 49], [118, 49], 1⟩ ∧
    (∃ msg, encode ⟨[97, 46, 49], [118, 49], 1⟩ = .ok msg ∧
      decode msg = .ok ⟨[97, 46, 49], [118, 49], 1⟩) ∧
    messages ((⟨[97, 46, 49], [118, 49], 1⟩ : kvmsg).send ⟨[]⟩).sent =
      [(⟨[97, 46, 49], [118, 49], 1⟩ : kvmsg).frames.map frame.data] ∧
    kvmsg.recv ((⟨[97, 46, 49], [118, 49], 1⟩ : kvmsg).frames.map frame.data) =
      some ⟨[97, 46, 49], [118, 49], 1⟩ :=
  ⟨by decide, kvmsg_roundtrip ⟨[97, 46, 49], [118, 49], 1⟩ (by decide)⟩

end Clone
